import Mathlib

/-!
Verification development for the RepoMCPConnector core
(`app/security/validation.py`, `app/security/sandboxing.py`,
`app/git_logic/repo_manager.py`).

The Python source is shallowly embedded: pure string manipulation
(`shlex.quote`, the bisect-script construction, `urllib.parse.urlparse`,
`os.path` operations, the repo-path regex) is translated into executable
Lean functions over `String` / `List Char`; the effectful parts
(git fetch/clone, `shutil.rmtree`, the Docker client) are embedded as
state-passing functions whose external outcomes are supplied by an
explicit oracle, and which record a trace of the operations performed.
-/

/- ### Character constants (named, to keep escape sequences out of literals) -/

/-- The single-quote character. -/
def qChar : Char := Char.ofNat 39

/-- The double-quote character. -/
def dqChar : Char := Char.ofNat 34

/-- The backslash character. -/
def bsChar : Char := Char.ofNat 92

/-- The space character. -/
def spChar : Char := Char.ofNat 32

/-- The newline character. -/
def nlChar : Char := Char.ofNat 10

/-- The horizontal-tab character. -/
def tabChar : Char := Char.ofNat 9

/-- The dollar-sign character. -/
def dollarChar : Char := Char.ofNat 36

/-- The backquote character. -/
def btChar : Char := Char.ofNat 96

/-- The forward-slash character. -/
def slashChar : Char := Char.ofNat 47

/- ### shlex.quote (Python standard library, as used by sandboxing.py)

Python's `shlex.quote(s)`:
  * returns two single quotes when `s` is empty;
  * returns `s` unchanged when every character of `s` matches the class
    of `\w` under `re.ASCII` (ASCII letters, digits, `_`) together with
    the characters @ % + = : , . / - ;
  * otherwise wraps `s` in single quotes after replacing every single
    quote by the five characters: quote, double-quote, quote,
    double-quote, quote. -/

/-- Characters `shlex.quote` leaves unquoted: ASCII `\w` together with
the characters @ % + = : , . / - . -/
def shlexSafe (c : Char) : Bool :=
  c.isAlphanum || c = '_' || c = '@' || c = '%' || c = '+' || c = '=' ||
  c = ':' || c = ',' || c = '.' || c = '/' || c = '-'

/-- The replacement pass of `shlex.quote`: every single quote becomes the
five-character sequence quote, double-quote, quote, double-quote, quote. -/
def escQuote : List Char → List Char
  | [] => []
  | c :: rest =>
      if c = qChar then
        qChar :: dqChar :: qChar :: dqChar :: qChar :: escQuote rest
      else c :: escQuote rest

/-- `shlex.quote` over a list of characters. -/
def shlexQuoteL (s : List Char) : List Char :=
  if s = [] then [qChar, qChar]
  else if s.all shlexSafe then s
  else qChar :: (escQuote s ++ [qChar])

/-- `shlex.quote` over `String`. -/
def shlexQuote (s : String) : String := ⟨shlexQuoteL s.data⟩

/- ### A POSIX-shell word splitter

Model of how `/bin/sh` splits a command line into words: unquoted
space/tab/newline separate words; single quotes make everything up to the
closing quote literal; inside double quotes a backslash escapes only
double-quote, backslash, dollar and backquote; an unquoted backslash
escapes the next character.  (Expansion of the resulting words, e.g. of a
live `$`, is not modelled; `uqMetas` below tracks which metacharacters
remain live.) -/

/-- Quoting state of the splitter: outside quotes, inside single quotes,
inside double quotes, and the two states entered right after reading a
backslash (outside quotes, resp. inside double quotes). -/
inductive QS where
  | out | sq | dq | outEsc | dqEsc
  deriving DecidableEq

/-- One-pass shell word splitter.  `acc = none` means no word is open;
`acc = some w` means the word `w` is open (possibly empty, e.g. after
an empty quoted string). -/
def shStep : List Char → QS → Option (List Char) → List (List Char)
  | [], QS.out, none => []
  | [], QS.out, some cur => [cur]
  | [], QS.sq, none => []
  | [], QS.sq, some cur => [cur]
  | [], QS.dq, none => []
  | [], QS.dq, some cur => [cur]
  | [], QS.outEsc, none => []
  | [], QS.outEsc, some cur => [cur]
  | [], QS.dqEsc, none => []
  | [], QS.dqEsc, some cur => [cur ++ [bsChar]]
  | c :: rest, QS.out, acc =>
      if c = spChar ∨ c = tabChar ∨ c = nlChar then
        match acc with
        | none => shStep rest QS.out none
        | some cur => cur :: shStep rest QS.out none
      else if c = qChar then shStep rest QS.sq (some (acc.getD []))
      else if c = dqChar then shStep rest QS.dq (some (acc.getD []))
      else if c = bsChar then shStep rest QS.outEsc (some (acc.getD []))
      else shStep rest QS.out (some (acc.getD [] ++ [c]))
  | c :: rest, QS.outEsc, acc =>
      shStep rest QS.out (some (acc.getD [] ++ [c]))
  | c :: rest, QS.sq, acc =>
      if c = qChar then shStep rest QS.out acc
      else shStep rest QS.sq (some (acc.getD [] ++ [c]))
  | c :: rest, QS.dq, acc =>
      if c = dqChar then shStep rest QS.out acc
      else if c = bsChar then shStep rest QS.dqEsc acc
      else shStep rest QS.dq (some (acc.getD [] ++ [c]))
  | c :: rest, QS.dqEsc, acc =>
      if c = dqChar ∨ c = bsChar ∨ c = dollarChar ∨ c = btChar then
        shStep rest QS.dq (some (acc.getD [] ++ [c]))
      else shStep rest QS.dq (some (acc.getD [] ++ [bsChar, c]))

/-- Split a character list into the shell words it denotes. -/
def shWords (l : List Char) : List (List Char) := shStep l QS.out none

/-- Shell metacharacters that start command/expansion syntax when they
appear unquoted: `; | & < > ( ) $` and backquote. -/
def isShellMeta (c : Char) : Bool :=
  c = ';' || c = '|' || c = '&' || c = '<' || c = '>' ||
  c = '(' || c = ')' || c = dollarChar || c = btChar

/-- Collect the metacharacters of a command line that remain live for the
shell: every metacharacter seen outside quotes, and `$`/backquote seen
inside double quotes (where they still expand). -/
def uqMetas : List Char → QS → List Char
  | [], _ => []
  | c :: rest, QS.out =>
      if c = qChar then uqMetas rest QS.sq
      else if c = dqChar then uqMetas rest QS.dq
      else if c = bsChar then uqMetas rest QS.outEsc
      else if isShellMeta c then c :: uqMetas rest QS.out
      else uqMetas rest QS.out
  | _ :: rest, QS.outEsc => uqMetas rest QS.out
  | c :: rest, QS.sq =>
      if c = qChar then uqMetas rest QS.out else uqMetas rest QS.sq
  | c :: rest, QS.dq =>
      if c = dqChar then uqMetas rest QS.out
      else if c = bsChar then uqMetas rest QS.dqEsc
      else if c = dollarChar ∨ c = btChar then c :: uqMetas rest QS.dq
      else uqMetas rest QS.dq
  | _ :: rest, QS.dqEsc => uqMetas rest QS.dq

/- ### sandboxing.py — bisect script and container command construction

`run_sandboxed_bisect` builds, with Python f-strings:

  safe_test_command = shlex.quote(test_command)
  bisect_script = (a triple-quoted script whose lines are indented by four
    spaces; the commit hashes are interpolated verbatim, the test command
    is interpolated as safe_test_command)
  command = "/bin/sh -c " followed by shlex.quote(bisect_script)

The definitions below spell the script out as the exact concatenation the
f-string denotes (including the four-space indentation and the lines that
hold only four spaces). -/

/-- The script line `git bisect bad {bad_commit}` — verbatim interpolation. -/
def bad_line (bad_commit : String) : String := "git bisect bad " ++ bad_commit

/-- The script line `git bisect good {good_commit}` — verbatim interpolation. -/
def good_line (good_commit : String) : String := "git bisect good " ++ good_commit

/-- The script line `git bisect run /bin/sh -c {safe_test_command}`, where
`safe_test_command = shlex.quote(test_command)`. -/
def run_line (test_command : String) : String :=
  "git bisect run /bin/sh -c " ++ shlexQuote test_command

/-- Text of the f-string before the `git bisect bad` line. -/
def script_head : String :=
  "\n    git config --global --add safe.directory /app\n    cd /app\n    \n    # Reset any potential mess\n    git bisect reset || true\n    \n    # Start bisect\n    git bisect start\n    "

/-- Text of the f-string between the bad-commit and good-commit lines. -/
def script_sep1 : String := "\n    "

/-- Text of the f-string between the good-commit line and the run line. -/
def script_sep2 : String :=
  "\n    \n    # Run the automated bisect using the SAFE, QUOTED command\n    "

/-- Text of the f-string after the run line. -/
def script_tail : String := "\n    "

/-- The `bisect_script` f-string of `run_sandboxed_bisect`. -/
def bisect_script (test_command bad_commit good_commit : String) : String :=
  script_head ++ bad_line bad_commit ++ script_sep1 ++ good_line good_commit ++
  script_sep2 ++ run_line test_command ++ script_tail

/-- The `command` argument passed to `client.containers.run`. -/
def container_command (test_command bad_commit good_commit : String) : String :=
  "/bin/sh -c " ++ shlexQuote (bisect_script test_command bad_commit good_commit)

/- ### sandboxing.py — _parse_bisect_result

`re.search(r'([a-f0-9]+) is the first bad commit', logs)`: the leftmost
match of a nonempty run of lowercase-hex characters followed by the
literal marker.  Since the marker starts with a space, which is not a hex
character, the greedy run never needs backtracking: a match starting at a
position exists exactly when the maximal hex run there is nonempty and
the marker follows it. -/

/-- Characters matched by the class of lowercase-hex digits `[a-f0-9]`. -/
def isHexLower (c : Char) : Bool := c.isDigit || ('a' ≤ c && c ≤ 'f')

/-- The literal part of the bisect-result pattern. -/
def bisectMarker : List Char := " is the first bad commit".data

/-- A regex match attempt anchored at the start of `l`. -/
def tryBisectAt (l : List Char) : Option (List Char) :=
  let run := l.takeWhile isHexLower
  if run = [] then none
  else if bisectMarker.isPrefixOf (l.dropWhile isHexLower) then some run
  else none

/-- Leftmost search, as `re.search` does. -/
def searchBisect : List Char → Option (List Char)
  | [] => none
  | c :: rest =>
      match tryBisectAt (c :: rest) with
      | some r => some r
      | none => searchBisect rest

/-- `_parse_bisect_result(logs)`: the captured hex group of the leftmost
match, or the string Not found. -/
def parse_bisect_result (logs : String) : String :=
  match searchBisect logs.data with
  | some r => ⟨r⟩
  | none => "Not found"

/- ### sandboxing.py — control flow of run_sandboxed_bisect

The Docker side effects are an oracle: each field fixes the outcome of
one external call.  The function records a trace of the operations it
performs.  `clientOk = false` models get_docker_client raising (docker
library missing or daemon unreachable); that call happens before the
try/finally block, so it propagates to the caller as a raised error.
Exception message texts from the docker library are abstracted to fixed
tags, since the code only passes them through `str(e)`. -/

/-- Outcomes of the external Docker calls made by one invocation. -/
structure SbOracle where
  /-- get_docker_client succeeds (library importable and daemon pingable). -/
  clientOk : Bool
  /-- `client.images.get` finds the image already present (`false` =
  it raises ImageNotFound and a pull is attempted). -/
  imageFound : Bool
  /-- `client.images.pull` succeeds. -/
  pullOk : Bool
  /-- `client.containers.run` succeeds and returns a container. -/
  runOk : Bool
  /-- `container.wait(timeout=300)`: `some code` is a result whose
  StatusCode is `code`; `none` is a raised exception (e.g. the
  read timeout firing while waiting). -/
  waitExit : Option Nat
  /-- `container.logs()` succeeds. -/
  logsOk : Bool
  /-- The decoded log text when `logsOk`. -/
  logsText : String
  deriving DecidableEq

/-- The operations `run_sandboxed_bisect` can perform, in trace order.
`runContainer` records the command string handed to Docker. -/
inductive SbAct where
  | getImage
  | pullImage
  | runContainer (cmd : String)
  | waitContainer
  | getLogs
  | removeContainer
  deriving DecidableEq

/-- What the call produces: a raised exception (only from
get_docker_client), the `{success: False, error: ...}` dict built by the
except-branch, or the result dict of the happy path. -/
inductive SbOutcome where
  | raised (msg : String)
  | errorDict (msg : String)
  | resultDict (success : Bool) (exitCode : Nat) (logs : String) (foundCommit : String)
  deriving DecidableEq

/-- Control flow of `run_sandboxed_bisect(repo_path, test_command,
bad_commit, good_commit)`; returns the outcome and the trace of external
operations.  The finally-block (`container.remove(force=True)`, its own
errors swallowed) contributes `removeContainer` on every path on which
`containers.run` succeeded — regardless of what happened afterwards. -/
def run_sandboxed_bisectM (o : SbOracle) (test_command bad_commit good_commit : String) :
    SbOutcome × List SbAct :=
  if ¬ o.clientOk then (SbOutcome.raised ("docker unavailable"), [])
  else
    let cmd := container_command test_command bad_commit good_commit
    let pre : List SbAct :=
      if o.imageFound then [SbAct.getImage] else [SbAct.getImage, SbAct.pullImage]
    if ¬ o.imageFound ∧ ¬ o.pullOk then
      (SbOutcome.errorDict ("image pull failed"), pre)
    else if ¬ o.runOk then
      (SbOutcome.errorDict ("container run failed"), pre ++ [SbAct.runContainer cmd])
    else
      match o.waitExit with
      | none =>
          (SbOutcome.errorDict ("wait failed or timed out"),
            pre ++ [SbAct.runContainer cmd, SbAct.waitContainer, SbAct.removeContainer])
      | some code =>
          if ¬ o.logsOk then
            (SbOutcome.errorDict ("reading logs failed"),
              pre ++ [SbAct.runContainer cmd, SbAct.waitContainer, SbAct.getLogs,
                SbAct.removeContainer])
          else
            (SbOutcome.resultDict (code == 0) code o.logsText
                (parse_bisect_result o.logsText),
              pre ++ [SbAct.runContainer cmd, SbAct.waitContainer, SbAct.getLogs,
                SbAct.removeContainer])

/- ### validation.py — validate_safe_path

`validate_safe_path(base_dir, user_path)`:
  1. `base_dir = os.path.realpath(base_dir)`
  2. `full_path_raw = os.path.join(base_dir, user_path)`
  3. `full_path_real = os.path.realpath(full_path_raw)`
  4. `common_prefix = os.path.commonprefix([base_dir, full_path_real])`
  5. raise ValueError if the common string prefix differs from `base_dir`,
     else return `full_path_real`.

`os.path.realpath` is modelled for absolute POSIX paths on a filesystem
without symbolic links: split on the separator, then resolve `.`, `..`
and empty segments left to right (with `..` at the root a no-op), and
render the result back as an absolute path.  The inputs used in the
theorems below involve no symlinks, so this is exactly what realpath
computes on them. -/

/-- Split a character list on the path separator. -/
def splitSlash : List Char → List (List Char)
  | [] => [[]]
  | c :: rest =>
      if c = slashChar then [] :: splitSlash rest
      else
        match splitSlash rest with
        | [] => [[c]]
        | seg :: segs => (c :: seg) :: segs

/-- Resolve empty, dot and dot-dot segments left to right. -/
def resolveSegs : List (List Char) → List (List Char) → List (List Char)
  | acc, [] => acc
  | acc, seg :: rest =>
      if seg = [] ∨ seg = ['.'] then resolveSegs acc rest
      else if seg = ['.', '.'] then resolveSegs acc.dropLast rest
      else resolveSegs (acc ++ [seg]) rest

/-- Render resolved segments as an absolute path. -/
def renderAbs (segs : List (List Char)) : List Char :=
  match segs with
  | [] => [slashChar]
  | _ => segs.foldl (fun acc seg => acc ++ slashChar :: seg) []

/-- `os.path.realpath` for absolute POSIX paths without symlinks. -/
def realpathStr (p : String) : String :=
  ⟨renderAbs (resolveSegs [] (splitSlash p.data))⟩

/-- `posixpath.join(a, b)`. -/
def posixJoin (a b : String) : String :=
  if b.data.head? = some slashChar then b
  else if a.data = [] ∨ a.data.getLast? = some slashChar then a ++ b
  else a ++ "/" ++ b

/-- `os.path.commonprefix` on a two-element list: the character-wise
longest common string prefix (for two strings, taking the lexicographic
min and max first changes nothing). -/
def strCommonPre : List Char → List Char → List Char
  | x :: a, y :: b => if x = y then x :: strCommonPre a b else []
  | _, _ => []

/-- `validate_safe_path(base_dir, user_path)`: `some` of the resolved
path when accepted, `none` for the ValueError (traversal) rejection. -/
def validate_safe_path (base_dir user_path : String) : Option String :=
  let base := realpathStr base_dir
  let full_path_raw := posixJoin base user_path
  let full_path_real := realpathStr full_path_raw
  if strCommonPre base.data full_path_real.data = base.data then some full_path_real
  else none

/-- Modelled from the spec: the canonical result is the canonical root
itself or a strict descendant of it (root followed by a separator). -/
def underRoot (root p : String) : Bool :=
  p = root || (root.data ++ [slashChar]).isPrefixOf p.data

/- ### urllib.parse.urlparse — the subset exercised by validation.py

`urlparse` is modelled for URLs containing no whitespace or control
characters (the control-character preprocessing that CPython applies is
the identity on every URL considered here):
  * a scheme is recognized when a nonempty prefix of scheme characters,
    starting with an ASCII letter, precedes the first colon; the scheme
    is lowercased;
  * when the remainder starts with two slashes, the netloc extends to the
    next slash, question mark or hash; a netloc containing a square
    bracket makes CPython validate (and possibly reject) a bracketed
    IPv6-style host — the model conservatively treats any bracket as a
    parse failure, which the theorems never rely on for an accept;
  * the fragment is everything after the first hash, the query everything
    after the first question mark of what remains;
  * `urlparse` (unlike `urlsplit`) additionally splits params: the part
    of the path after the first semicolon of its last slash-segment;
  * username/password come from the part of the netloc before its last
    at-sign: username before the first colon of it, password after. -/

/-- Characters allowed in a URL scheme after the leading letter. -/
def isSchemeChar (c : Char) : Bool :=
  c.isAlphanum || c = '+' || c = '-' || c = '.'

/-- Split at the first occurrence of `ch`; `none` when absent. -/
def splitAtFirst (ch : Char) : List Char → Option (List Char × List Char)
  | [] => none
  | c :: rest =>
      if c = ch then some ([], rest)
      else
        match splitAtFirst ch rest with
        | none => none
        | some (a, b) => some (c :: a, b)

/-- Split at the last occurrence of `ch`; `none` when absent. -/
def splitAtLast (ch : Char) (l : List Char) : Option (List Char × List Char) :=
  match splitAtFirst ch l.reverse with
  | none => none
  | some (ra, rb) => some (rb.reverse, ra.reverse)

/-- The result components of `urlparse`. -/
structure UrlParts where
  scheme : String
  netloc : String
  path : String
  params : String
  query : String
  fragment : String
  deriving DecidableEq

/-- `_splitparams`: split off the part after the first semicolon of the
last slash-segment of the path. -/
def splitParams (p : List Char) : List Char × List Char :=
  match splitAtLast slashChar p with
  | some (beforeSlash, lastSeg) =>
      (match splitAtFirst ';' lastSeg with
       | some (a, b) => (beforeSlash ++ slashChar :: a, b)
       | none => (p, []))
  | none =>
      (match splitAtFirst ';' p with
       | some (a, b) => (a, b)
       | none => (p, []))

/-- `urllib.parse.urlparse`; `none` models a raised ValueError. -/
def pyUrlparse (url : String) : Option UrlParts :=
  let l := url.data
  let schemeRest : List Char × List Char :=
    match splitAtFirst ':' l with
    | some (before, after) =>
        if before ≠ [] ∧ (before.head?.elim false Char.isAlpha)
            ∧ before.all isSchemeChar then
          (before.map Char.toLower, after)
        else ([], l)
    | none => ([], l)
  let scheme := schemeRest.1
  let rest := schemeRest.2
  let netlocRest : List Char × List Char :=
    match rest with
    | c1 :: c2 :: tail =>
        if c1 = slashChar ∧ c2 = slashChar then
          (tail.takeWhile (fun c => ¬ (c = slashChar ∨ c = '?' ∨ c = '#')),
           tail.dropWhile (fun c => ¬ (c = slashChar ∨ c = '?' ∨ c = '#')))
        else ([], rest)
    | _ => ([], rest)
  let netloc := netlocRest.1
  let rest2 := netlocRest.2
  if netloc.contains '[' ∨ netloc.contains ']' then none
  else
    let fragSplit : List Char × List Char :=
      match splitAtFirst '#' rest2 with
      | some (a, b) => (a, b)
      | none => (rest2, [])
    let querySplit : List Char × List Char :=
      match splitAtFirst '?' fragSplit.1 with
      | some (a, b) => (a, b)
      | none => (fragSplit.1, [])
    let pathParams := splitParams querySplit.1
    some ⟨⟨scheme⟩, ⟨netloc⟩, ⟨pathParams.1⟩, ⟨pathParams.2⟩,
      ⟨querySplit.2⟩, ⟨fragSplit.2⟩⟩

/-- The userinfo part of a netloc: what precedes its last at-sign
(`None` when there is no at-sign). -/
def userinfoOf (netloc : String) : Option (List Char) :=
  match splitAtLast '@' netloc.data with
  | some (ui, _) => some ui
  | none => none

/-- `ParseResult.username`: the userinfo up to its first colon. -/
def usernameOf (netloc : String) : Option (List Char) :=
  match userinfoOf netloc with
  | some ui =>
      (match splitAtFirst ':' ui with
       | some (u, _) => some u
       | none => some ui)
  | none => none

/-- `ParseResult.password`: the userinfo after its first colon, `None`
when the userinfo has no colon. -/
def passwordOf (netloc : String) : Option (List Char) :=
  match userinfoOf netloc with
  | some ui =>
      (match splitAtFirst ':' ui with
       | some (_, p) => some p
       | none => none)
  | none => none

/-- Python truthiness of an optional string: `None` and the empty string
are falsy. -/
def optTruthy : Option (List Char) → Bool
  | none => false
  | some s => !(s == [])

/- ### validation.py — is_safe_git_url -/

/-- The strict allow-list of hosting domains. -/
def allowed_domains : List String := ["github.com", "gitlab.com", "bitbucket.org"]

/-- `str.endswith`. -/
def strEndsWith (s suf : String) : Bool := suf.data.isSuffixOf s.data

/-- The character class `[A-Za-z0-9_.-]` of the repo-path regex. -/
def isRepoChar (c : Char) : Bool :=
  c.isAlphanum || c = '_' || c = '.' || c = '-'

/-- The part of the repo-path regex after the first class run: a slash,
a second nonempty class run, and an optional final slash.  Together with
`pathRegexMatch` below this is a direct matcher for
`^/[A-Za-z0-9_.-]+/[A-Za-z0-9_.-]+(\.git)?/?$`: because `.`, `g`, `i`,
`t` all belong to the character class, the optional `(\.git)?` group is
absorbed by the greedy second class run, so the regex's language is
exactly a slash, a nonempty class run, a slash, a nonempty class run,
and an optional final slash. -/
def pathTail : List Char → Bool
  | [] => false
  | c2 :: r2 =>
      if c2 = slashChar then
        if r2.takeWhile isRepoChar = [] then false
        else decide (r2.dropWhile isRepoChar = []
          ∨ r2.dropWhile isRepoChar = [slashChar])
      else false

/-- Entry of the matcher: a slash, then the first nonempty class run,
then `pathTail` on what remains. -/
def pathRegexMatch (p : List Char) : Bool :=
  match p with
  | [] => false
  | c :: rest =>
      if c = slashChar then
        if rest.takeWhile isRepoChar = [] then false
        else pathTail (rest.dropWhile isRepoChar)
      else false

/-- `is_safe_git_url(url)`: scheme must be https, netloc nonempty and on
the allow-list or a dot-subdomain of it, path must match the repo regex,
and query/fragment/username/password must all be falsy.  A parse error
returns False through the except-branch. -/
def is_safe_git_url (url : String) : Bool :=
  match pyUrlparse url with
  | none => false
  | some parsed =>
      if !(parsed.scheme == "https") then false
      else if parsed.netloc == "" then false
      else if !(decide (parsed.netloc ∈ allowed_domains)
          || allowed_domains.any (fun d => strEndsWith parsed.netloc ("." ++ d))) then
        false
      else if !(pathRegexMatch parsed.path.data) then false
      else if !(parsed.query == "") || !(parsed.fragment == "")
          || optTruthy (usernameOf parsed.netloc)
          || optTruthy (passwordOf parsed.netloc) then false
      else true

/- ### The C3 claim, written from the spec's words

The claim's conditions are phrased over the same parse of the URL; the
path-shape condition is the claim's `/<owner>/<name>` optionally followed
by `.git`, with owner and name over the permitted character set.  The
claim's "no embedded credentials" is read as: no credential text is
embedded (an empty userinfo marker embeds none). -/

/-- A nonempty segment over the permitted character set. -/
def RepoSegP (s : List Char) : Prop := s ≠ [] ∧ ∀ c ∈ s, isRepoChar c = true

/-- The characters of the literal `.git`. -/
def dotGitChars : List Char := ".git".data

/-- Modelled from the spec: the path is `/<owner>/<name>` optionally
followed by `.git`, with no extra path segments. -/
def SpecPathStrict (p : List Char) : Prop :=
  ∃ o n, RepoSegP o ∧ RepoSegP n ∧
    (p = slashChar :: (o ++ slashChar :: n)
      ∨ p = slashChar :: (o ++ slashChar :: (n ++ dotGitChars)))

/-- The strict path shape, additionally allowing one trailing slash (the
amendment the code's regex forces). -/
def SpecPathAmended (p : List Char) : Prop :=
  SpecPathStrict p ∨ ∃ q, SpecPathStrict q ∧ p = q ++ [slashChar]

/-- The C3 claim's acceptance condition as stated (strict path shape). -/
def ClaimCondStrict (url : String) : Prop :=
  ∃ parts, pyUrlparse url = some parts ∧
    parts.scheme = "https" ∧
    parts.netloc ≠ "" ∧
    (parts.netloc ∈ allowed_domains
      ∨ ∃ d ∈ allowed_domains, strEndsWith parts.netloc ("." ++ d) = true) ∧
    SpecPathStrict parts.path.data ∧
    optTruthy (usernameOf parts.netloc) = false ∧
    optTruthy (passwordOf parts.netloc) = false ∧
    parts.query = "" ∧ parts.fragment = ""

/-- The C3 claim's acceptance condition with the path shape amended to
allow one trailing slash. -/
def ClaimCondAmended (url : String) : Prop :=
  ∃ parts, pyUrlparse url = some parts ∧
    parts.scheme = "https" ∧
    parts.netloc ≠ "" ∧
    (parts.netloc ∈ allowed_domains
      ∨ ∃ d ∈ allowed_domains, strEndsWith parts.netloc ("." ++ d) = true) ∧
    SpecPathAmended parts.path.data ∧
    optTruthy (usernameOf parts.netloc) = false ∧
    optTruthy (passwordOf parts.netloc) = false ∧
    parts.query = "" ∧ parts.fragment = ""

/- ### repo_manager.py — get_repo and _clone_repo

The filesystem and git effects are embedded as explicit state passing:
the state tracks, for the single cache directory `CLONE_DIR/md5(url)`
addressed by a call, whether the directory exists, whether it contains a
`.git` subdirectory, and the origin URL configured in it.  Outcomes of
the external operations (fetch, clone, rmtree) are supplied by an
oracle; the run records a trace of the operations attempted.  The hash
function `hashlib.md5(...).hexdigest()` is an external primitive and is
a parameter of the model; nothing below depends on anything beyond it
being a fixed function of the URL. -/

/-- State of the cache directory addressed by one URL. -/
structure RepoState where
  existsDir : Bool
  hasDotGit : Bool
  originUrl : String
  deriving DecidableEq

/-- Outcome of a git library call. -/
inductive GitOutcome where
  | ok
  | gitError (msg : String)
  | otherError (msg : String)
  deriving DecidableEq

/-- Outcomes of the external operations one `get_repo` call can attempt. -/
structure RepoOracle where
  /-- `repo.remotes.origin.fetch()`. -/
  fetchR : GitOutcome
  /-- `Repo.clone_from(repo_url, repo_path, depth=50)`. -/
  cloneR : GitOutcome
  /-- `shutil.rmtree` in the fetch-failure recovery path succeeds. -/
  rmtreeRecoverOk : Bool
  /-- `shutil.rmtree` of an invalid directory (missing `.git`) succeeds
  (its OSError is ignored by the code). -/
  rmtreeStaleOk : Bool
  /-- a failed clone left a partially created directory behind. -/
  clonePartialLeft : Bool
  /-- the ignore-errors `shutil.rmtree` cleanup in `_clone_repo` after a
  failed clone actually removes the directory. -/
  rmtreeCleanupOk : Bool
  deriving DecidableEq

/-- The errors `get_repo` can raise. -/
inductive RepoErr where
  | valueError (msg : String)
  | runtimeError (msg : String)
  deriving DecidableEq

/-- Operations recorded in the trace. -/
inductive RepoAct where
  | openRepo
  | setRemoteUrl
  | fetchOrigin
  | rmtreeDir
  | cloneFrom
  deriving DecidableEq

/-- Result of one call: returned value or raised error, post-state of
the cache directory, and the trace of operations attempted. -/
structure RepoRun where
  res : Except RepoErr String
  state : RepoState
  trace : List RepoAct

/-- The module-level cache root (`settings.CLONE_DIR` default). -/
def CLONE_DIR : String := "/app/clones"

/-- The ValueError message for a URL failing validation. -/
def invalid_url_msg : String :=
  "Invalid or unsafe Git repository URL. Only public HTTPS URLs from GitHub, GitLab, and Bitbucket are allowed."

/-- `repo_path = os.path.join(CLONE_DIR, hashlib.md5(url).hexdigest())`. -/
def repoPathOf (md5hex : String → String) (url : String) : String :=
  CLONE_DIR ++ "/" ++ md5hex url

/-- `_clone_repo(repo_url, repo_path)`: a successful clone yields a valid
directory whose origin is the URL; a failed clone removes the partial
directory (ignore_errors — the directory survives only when that
removal itself fails) and raises a RuntimeError. -/
def cloneRepoM (repo_url repo_path : String) (st : RepoState) (o : RepoOracle) :
    RepoRun :=
  match o.cloneR with
  | GitOutcome.ok =>
      ⟨Except.ok repo_path, ⟨true, true, repo_url⟩, [RepoAct.cloneFrom]⟩
  | GitOutcome.gitError e =>
      if o.clonePartialLeft then
        ⟨Except.error (RepoErr.runtimeError ("Failed to clone repo: " ++ e)),
          ⟨!o.rmtreeCleanupOk, false, st.originUrl⟩,
          [RepoAct.cloneFrom, RepoAct.rmtreeDir]⟩
      else
        ⟨Except.error (RepoErr.runtimeError ("Failed to clone repo: " ++ e)),
          ⟨false, false, st.originUrl⟩, [RepoAct.cloneFrom]⟩
  | GitOutcome.otherError e =>
      if o.clonePartialLeft then
        ⟨Except.error (RepoErr.runtimeError
            ("An unexpected error occurred during clone: " ++ e)),
          ⟨!o.rmtreeCleanupOk, false, st.originUrl⟩,
          [RepoAct.cloneFrom, RepoAct.rmtreeDir]⟩
      else
        ⟨Except.error (RepoErr.runtimeError
            ("An unexpected error occurred during clone: " ++ e)),
          ⟨false, false, st.originUrl⟩, [RepoAct.cloneFrom]⟩

/-- `get_repo(repo_url)`: validate the URL; with an existing valid
directory, open it, align its remote URL, and fetch — a GitCommandError
from the fetch triggers delete-and-reclone (a failing delete raises), any
other fetch error raises; with a missing or invalid directory, remove
remnants (errors ignored) and clone. -/
def get_repoM (md5hex : String → String) (repo_url : String) (st : RepoState)
    (o : RepoOracle) : RepoRun :=
  if is_safe_git_url repo_url = false then
    ⟨Except.error (RepoErr.valueError invalid_url_msg), st, []⟩
  else
    let repo_path := repoPathOf md5hex repo_url
    if st.existsDir && st.hasDotGit then
      let st1 : RepoState := ⟨true, true, repo_url⟩
      let tr0 : List RepoAct :=
        if st.originUrl = repo_url then [RepoAct.openRepo]
        else [RepoAct.openRepo, RepoAct.setRemoteUrl]
      match o.fetchR with
      | GitOutcome.ok =>
          ⟨Except.ok repo_path, st1, tr0 ++ [RepoAct.fetchOrigin]⟩
      | GitOutcome.gitError _ =>
          if o.rmtreeRecoverOk then
            let c := cloneRepoM repo_url repo_path ⟨false, false, st1.originUrl⟩ o
            ⟨c.res, c.state, tr0 ++ [RepoAct.fetchOrigin, RepoAct.rmtreeDir] ++ c.trace⟩
          else
            ⟨Except.error (RepoErr.runtimeError
                ("Failed to clean up corrupted repo at " ++ repo_path)), st1,
              tr0 ++ [RepoAct.fetchOrigin, RepoAct.rmtreeDir]⟩
      | GitOutcome.otherError e =>
          ⟨Except.error (RepoErr.runtimeError
              ("An unexpected error occurred during fetch: " ++ e)), st1,
            tr0 ++ [RepoAct.fetchOrigin]⟩
    else
      if st.existsDir then
        let st2 : RepoState :=
          if o.rmtreeStaleOk then ⟨false, false, st.originUrl⟩ else st
        let c := cloneRepoM repo_url repo_path st2 o
        ⟨c.res, c.state, RepoAct.rmtreeDir :: c.trace⟩
      else
        cloneRepoM repo_url repo_path st o

/- ### Helper lemmas about the shell word splitter and shlex.quote -/

theorem shlexSafe_not_special {c : Char} (hc : shlexSafe c = true) :
    ¬ (c = spChar ∨ c = tabChar ∨ c = nlChar) ∧ ¬ (c = qChar) ∧ ¬ (c = dqChar)
      ∧ ¬ (c = bsChar) := by
  refine ⟨?_, ?_, ?_, ?_⟩
  · rintro (h1 | h1 | h1) <;> (subst h1; revert hc; decide)
  · intro h1; subst h1; revert hc; decide
  · intro h1; subst h1; revert hc; decide
  · intro h1; subst h1; revert hc; decide

theorem shlexSafe_not_meta {c : Char} (hc : shlexSafe c = true) :
    isShellMeta c = false := by
  by_contra hm
  have hm' : isShellMeta c = true := by
    cases h : isShellMeta c with
    | true => rfl
    | false => exact absurd h hm
  simp only [isShellMeta, Bool.or_eq_true, decide_eq_true_eq] at hm'
  rcases hm' with ((((((((h1 | h1) | h1) | h1) | h1) | h1) | h1) | h1) | h1) <;>
    (subst h1; revert hc; decide)

theorem shStep_escQuote_sq (s : List Char) :
    ∀ acc rest, shStep (escQuote s ++ (qChar :: rest)) QS.sq (some acc) =
      shStep rest QS.out (some (acc ++ s)) := by
  induction s with
  | nil => intro acc rest; simp [escQuote, shStep]
  | cons c s ih =>
    intro acc rest
    by_cases hc : c = qChar
    · subst hc
      have step : shStep (escQuote (qChar :: s) ++ (qChar :: rest)) QS.sq (some acc)
          = shStep (escQuote s ++ (qChar :: rest)) QS.sq (some (acc ++ [qChar])) := by
        simp only [escQuote, if_pos rfl, List.cons_append]
        simp [shStep, qChar, dqChar, spChar, tabChar, nlChar, bsChar, dollarChar, btChar]
      rw [step, ih]
      rw [List.append_assoc]; rfl
    · have step : shStep (escQuote (c :: s) ++ (qChar :: rest)) QS.sq (some acc)
          = shStep (escQuote s ++ (qChar :: rest)) QS.sq (some (acc ++ [c])) := by
        simp only [escQuote, if_neg hc, List.cons_append, shStep]
        simp
      rw [step, ih]
      rw [List.append_assoc]; rfl

theorem shStep_safe_cont (s : List Char) :
    s.all shlexSafe = true → ∀ acc rest,
      shStep (s ++ rest) QS.out (some acc) = shStep rest QS.out (some (acc ++ s)) := by
  induction s with
  | nil => intro _ acc rest; simp
  | cons c s ih =>
    intro h acc rest
    rw [List.all_cons, Bool.and_eq_true] at h
    obtain ⟨hc, hs⟩ := h
    obtain ⟨hws, hq, hdq, hbs⟩ := shlexSafe_not_special hc
    have step : shStep ((c :: s) ++ rest) QS.out (some acc)
        = shStep (s ++ rest) QS.out (some (acc ++ [c])) := by
      simp only [List.cons_append, shStep]
      rw [if_neg hws, if_neg hq, if_neg hdq, if_neg hbs]
      simp
    rw [step, ih hs]
    rw [List.append_assoc]; rfl

theorem shStep_safe_end (s : List Char) (hs : s.all shlexSafe = true) (acc : List Char) :
    shStep s QS.out (some acc) = [acc ++ s] := by
  have h := shStep_safe_cont s hs acc []
  rw [List.append_nil] at h
  rw [h]
  rfl

theorem shlexQuote_single_word (s : List Char) :
    shStep (shlexQuoteL s) QS.out none = [s] := by
  unfold shlexQuoteL
  by_cases h0 : s = []
  · subst h0; decide
  · rw [if_neg h0]
    by_cases hsafe : s.all shlexSafe = true
    · rw [if_pos hsafe]
      match s, h0 with
      | c :: s', _ =>
        have h' := hsafe
        rw [List.all_cons, Bool.and_eq_true] at h'
        obtain ⟨hc, hs'⟩ := h'
        obtain ⟨hws, hq, hdq, hbs⟩ := shlexSafe_not_special hc
        have step : shStep (c :: s') QS.out none = shStep s' QS.out (some [c]) := by
          simp only [shStep]
          rw [if_neg hws, if_neg hq, if_neg hdq, if_neg hbs]
          simp
        rw [step, shStep_safe_end s' hs' [c]]
        rfl
    · rw [if_neg hsafe]
      have start : shStep (qChar :: (escQuote s ++ [qChar])) QS.out none
          = shStep (escQuote s ++ (qChar :: [])) QS.sq (some []) := by
        simp [shStep, qChar, spChar, tabChar, nlChar]
      rw [start, shStep_escQuote_sq s [] []]
      simp [shStep]

theorem shWords_shlexQuote (s : List Char) : shWords (shlexQuoteL s) = [s] :=
  shlexQuote_single_word s

theorem shStep_space (rest cur : List Char) :
    shStep (spChar :: rest) QS.out (some cur) = cur :: shStep rest QS.out none := by
  simp [shStep]

theorem shStep_leading_word (w rest : List Char) (hw : w ≠ [])
    (hs : w.all shlexSafe = true) :
    shStep (w ++ (spChar :: rest)) QS.out none = w :: shStep rest QS.out none := by
  match w, hw with
  | c :: w', _ =>
    have h' := hs
    rw [List.all_cons, Bool.and_eq_true] at h'
    obtain ⟨hc, hw's⟩ := h'
    obtain ⟨hws, hq, hdq, hbs⟩ := shlexSafe_not_special hc
    have step : shStep ((c :: w') ++ (spChar :: rest)) QS.out none
        = shStep (w' ++ (spChar :: rest)) QS.out (some [c]) := by
      simp only [List.cons_append, shStep]
      rw [if_neg hws, if_neg hq, if_neg hdq, if_neg hbs]
      simp
    rw [step, shStep_safe_cont w' hw's [c] (spChar :: rest), shStep_space]
    rfl

theorem uqMetas_safe_cont (s : List Char) :
    s.all shlexSafe = true → ∀ rest,
      uqMetas (s ++ rest) QS.out = uqMetas rest QS.out := by
  induction s with
  | nil => intro _ rest; simp
  | cons c s ih =>
    intro h rest
    rw [List.all_cons, Bool.and_eq_true] at h
    obtain ⟨hc, hs⟩ := h
    obtain ⟨_, hq, hdq, hbs⟩ := shlexSafe_not_special hc
    have hm := shlexSafe_not_meta hc
    have step : uqMetas ((c :: s) ++ rest) QS.out = uqMetas (s ++ rest) QS.out := by
      simp only [List.cons_append, uqMetas]
      rw [if_neg hq, if_neg hdq, if_neg hbs, hm]
      simp
    rw [step, ih hs]

theorem uqMetas_escQuote (s : List Char) :
    ∀ rest, uqMetas (escQuote s ++ (qChar :: rest)) QS.sq = uqMetas rest QS.out := by
  induction s with
  | nil => intro rest; simp [escQuote, uqMetas]
  | cons c s ih =>
    intro rest
    by_cases hc : c = qChar
    · subst hc
      have step : uqMetas (escQuote (qChar :: s) ++ (qChar :: rest)) QS.sq
          = uqMetas (escQuote s ++ (qChar :: rest)) QS.sq := by
        simp only [escQuote, if_pos rfl, List.cons_append]
        simp [uqMetas, qChar, dqChar, bsChar, dollarChar, btChar]
      rw [step, ih]
    · have step : uqMetas (escQuote (c :: s) ++ (qChar :: rest)) QS.sq
          = uqMetas (escQuote s ++ (qChar :: rest)) QS.sq := by
        simp only [escQuote, if_neg hc, List.cons_append, uqMetas]
      rw [step, ih]

theorem uqMetas_shlexQuote (s : List Char) : uqMetas (shlexQuoteL s) QS.out = [] := by
  unfold shlexQuoteL
  by_cases h0 : s = []
  · subst h0; decide
  · rw [if_neg h0]
    by_cases hsafe : s.all shlexSafe = true
    · rw [if_pos hsafe]
      have h := uqMetas_safe_cont s hsafe []
      rw [List.append_nil] at h
      rw [h]
      rfl
    · rw [if_neg hsafe]
      have start : uqMetas (qChar :: (escQuote s ++ [qChar])) QS.out
          = uqMetas (escQuote s ++ (qChar :: [])) QS.sq := by
        simp [uqMetas, qChar]
      rw [start, uqMetas_escQuote s []]
      rfl

/- ### Claim theorems: C2 and C7 -/

/-- C2: `run_sandboxed_bisect` quotes `test_command` exactly once (as the
single opaque token `shlex.quote(test_command)`) inside the inner
`git bisect run /bin/sh -c` line, and quotes the whole inner script
exactly once more when building the outer `/bin/sh -c` container
command; splitting the container command as a shell does yields the
script as one literal word, splitting the inner run line yields the
test command as one literal word, and the quoted test command exposes no
unquoted shell metacharacter. -/
theorem c2_command_quoted_once (tc bc gc : String) :
    container_command tc bc gc = "/bin/sh -c " ++ shlexQuote (bisect_script tc bc gc)
    ∧ run_line tc = "git bisect run /bin/sh -c " ++ shlexQuote tc
    ∧ shWords (container_command tc bc gc).data
        = [("/bin/sh").data, ("-c").data, (bisect_script tc bc gc).data]
    ∧ shWords (run_line tc).data
        = [("git").data, ("bisect").data, ("run").data, ("/bin/sh").data,
            ("-c").data, tc.data]
    ∧ uqMetas (shlexQuote tc).data QS.out = [] := by
  refine ⟨rfl, rfl, ?_, ?_, uqMetas_shlexQuote tc.data⟩
  · have hdata : (container_command tc bc gc).data
        = ("/bin/sh").data ++ (spChar :: (("-c").data
            ++ (spChar :: shlexQuoteL (bisect_script tc bc gc).data))) := by
      show ("/bin/sh -c " ++ shlexQuote (bisect_script tc bc gc)).data = _
      rw [String.data_append]
      rfl
    unfold shWords
    rw [hdata]
    rw [shStep_leading_word _ _ (by decide) (by decide)]
    rw [shStep_leading_word _ _ (by decide) (by decide)]
    rw [shlexQuote_single_word]
  · have hdata : (run_line tc).data
        = ("git").data ++ (spChar :: (("bisect").data ++ (spChar :: (("run").data
            ++ (spChar :: (("/bin/sh").data ++ (spChar :: (("-c").data
            ++ (spChar :: shlexQuoteL tc.data))))))))) := by
      show ("git bisect run /bin/sh -c " ++ shlexQuote tc).data = _
      rw [String.data_append]
      rfl
    unfold shWords
    rw [hdata]
    rw [shStep_leading_word _ _ (by decide) (by decide)]
    rw [shStep_leading_word _ _ (by decide) (by decide)]
    rw [shStep_leading_word _ _ (by decide) (by decide)]
    rw [shStep_leading_word _ _ (by decide) (by decide)]
    rw [shStep_leading_word _ _ (by decide) (by decide)]
    rw [shlexQuote_single_word]

/-- C7: whenever `containers.run` succeeded (a container was created),
the trace of `run_sandboxed_bisect` contains the container-removal
cleanup step, on every exit path: normal completion, a failure reading
logs, and a wait failure or timeout. -/
theorem c7_container_cleanup (o : SbOracle) (tc bc gc : String)
    (hclient : o.clientOk = true) (himg : o.imageFound = true ∨ o.pullOk = true)
    (hrun : o.runOk = true) :
    SbAct.removeContainer ∈ (run_sandboxed_bisectM o tc bc gc).2 := by
  rcases o with ⟨ck, imf, pk, rk, we, lk, lt⟩
  simp only at hclient hrun himg
  subst hclient hrun
  unfold run_sandboxed_bisectM
  rcases we with _ | code <;> cases imf <;> cases pk <;> cases lk <;>
    simp_all [List.mem_append]

/-- Witness for C7 at a concrete oracle: the wait times out and the
container is still removed. -/
theorem c7_container_cleanup_witness :
    SbAct.removeContainer ∈
      (run_sandboxed_bisectM ⟨true, true, true, true, none, true, ""⟩
        ("make test") ("deadbee") ("cafe123")).2 :=
  c7_container_cleanup _ ("make test") ("deadbee") ("cafe123") rfl (Or.inl rfl) rfl

set_option maxRecDepth 100000 in
/-- C4: the commit arguments are interpolated verbatim, with no quoting
pass, into the `git bisect bad`/`git bisect good` lines of the inner
script; a bad-commit value carrying a semicolon leaves that semicolon
live (unquoted) for the inner shell, while the identical text passed as
the test command is neutralized by `shlex.quote`. -/
theorem c4_commit_args_unquoted :
    (∀ tc bc gc, bisect_script tc bc gc
        = script_head ++ ("git bisect bad " ++ bc) ++ script_sep1
            ++ ("git bisect good " ++ gc) ++ script_sep2
            ++ ("git bisect run /bin/sh -c " ++ shlexQuote tc) ++ script_tail)
    ∧ uqMetas (bad_line ("HEAD; rm -rf /tmp/x")).data QS.out = [';']
    ∧ ';' ∈ uqMetas (bisect_script ("true") ("HEAD; rm -rf /tmp/x") ("v1.0")).data QS.out
    ∧ uqMetas (run_line ("HEAD; rm -rf /tmp/x")).data QS.out = [] := by
  refine ⟨fun tc bc gc => rfl, by decide, by decide, by decide⟩

/-- C1: the claim (and the function's own documentation) requires every
path resolving outside the root to be rejected, but the string-level
common-prefix test also accepts sibling directories whose name extends
the root's name: from root `/srv/repo`, the user path
`../repo-evil/secret` resolves to `/srv/repo-evil/secret`, which is not
under the root, yet `validate_safe_path` accepts and returns it. -/
theorem c1_commonpfx_sibling_escape :
    validate_safe_path ("/srv/repo") ("../repo-evil/secret")
        = some ("/srv/repo-evil/secret")
    ∧ underRoot ("/srv/repo") ("/srv/repo-evil/secret") = false := by
  exact ⟨by decide, by decide⟩

/- ### Helper lemmas for the repo-path regex characterization -/

theorem takeWhile_dropWhile_app (q : Char → Bool) :
    ∀ (o X : List Char), (∀ c ∈ o, q c = true) →
      (X = [] ∨ ∃ x t, X = x :: t ∧ q x = false) →
      ((o ++ X).takeWhile q = o ∧ (o ++ X).dropWhile q = X) := by
  intro o
  induction o with
  | nil =>
    intro X _ hX
    rcases hX with h | ⟨x, t, hxt, hqx⟩
    · subst h; exact ⟨rfl, rfl⟩
    · subst hxt
      simp [List.takeWhile_cons, List.dropWhile_cons, hqx]
  | cons c o ih =>
    intro X ho hX
    have hqc : q c = true := ho c (List.mem_cons_self c o)
    have ho' : ∀ d ∈ o, q d = true := fun d hd => ho d (List.mem_cons_of_mem c hd)
    obtain ⟨h1, h2⟩ := ih X ho' hX
    simp [List.takeWhile_cons, List.dropWhile_cons, hqc, h1, h2]

theorem specPathStrict_last {p : List Char} (h : SpecPathStrict p) :
    ∃ c, p.getLast? = some c ∧ isRepoChar c = true := by
  obtain ⟨o, n, _, ⟨hn1, hn2⟩, hp | hp⟩ := h
  · subst hp
    have heq : slashChar :: (o ++ slashChar :: n)
        = (slashChar :: (o ++ [slashChar])) ++ n := by simp
    rw [heq, List.getLast?_append_of_ne_nil _ hn1]
    exact ⟨n.getLast hn1, List.getLast?_eq_getLast n hn1,
      hn2 _ (List.getLast_mem hn1)⟩
  · subst hp
    have heq : slashChar :: (o ++ slashChar :: (n ++ dotGitChars))
        = (slashChar :: (o ++ slashChar :: n)) ++ dotGitChars := by simp
    rw [heq, List.getLast?_append_of_ne_nil _ (by decide : dotGitChars ≠ [])]
    exact ⟨'t', by decide, by decide⟩

theorem not_specPathStrict_trailing : ¬ SpecPathStrict (("/owner/repo/").data) := by
  intro h
  obtain ⟨c, hc1, hc2⟩ := specPathStrict_last h
  have hcs : c = slashChar := by
    have hl : (("/owner/repo/").data).getLast? = some slashChar := by decide
    rw [hl] at hc1
    exact (Option.some.inj hc1).symm
  subst hcs
  revert hc2; decide

theorem pathRegexMatch_shape (o m t : List Char) (ho : RepoSegP o) (hm : RepoSegP m)
    (ht : t = [] ∨ t = [slashChar]) :
    pathRegexMatch (slashChar :: (o ++ slashChar :: (m ++ t))) = true := by
  obtain ⟨ho1, ho2⟩ := ho
  obtain ⟨hm1, hm2⟩ := hm
  have hX2 : (t = []) ∨ (∃ x t', t = x :: t' ∧ isRepoChar x = false) := by
    rcases ht with h | h
    · exact Or.inl h
    · exact Or.inr ⟨slashChar, [], h, by decide⟩
  obtain ⟨hm3, hm4⟩ := takeWhile_dropWhile_app isRepoChar m t hm2 hX2
  have hX1 : ((slashChar :: (m ++ t)) = [])
      ∨ (∃ x t', slashChar :: (m ++ t) = x :: t' ∧ isRepoChar x = false) :=
    Or.inr ⟨slashChar, m ++ t, rfl, by decide⟩
  obtain ⟨ho3, ho4⟩ := takeWhile_dropWhile_app isRepoChar o (slashChar :: (m ++ t)) ho2 hX1
  simp only [pathRegexMatch]
  rw [if_pos trivial, ho3, if_neg ho1, ho4]
  simp only [pathTail]
  rw [if_pos trivial, hm3, if_neg hm1, hm4]
  rcases ht with h | h <;> subst h <;> decide

theorem pathRegexMatch_iff (p : List Char) :
    pathRegexMatch p = true ↔ SpecPathAmended p := by
  constructor
  · intro h
    match p with
    | [] => exact absurd h (by decide)
    | c :: rest =>
      by_cases hc : c = slashChar
      case neg =>
        simp only [pathRegexMatch] at h
        rw [if_neg hc] at h
        exact absurd h (by decide)
      case pos =>
        subst hc
        simp only [pathRegexMatch] at h
        rw [if_pos trivial] at h
        by_cases ho : rest.takeWhile isRepoChar = []
        case pos => rw [if_pos ho] at h; exact absurd h (by decide)
        case neg =>
          rw [if_neg ho] at h
          cases hdrop : rest.dropWhile isRepoChar with
          | nil => rw [hdrop] at h; exact absurd h (by decide)
          | cons c2 r2 =>
            rw [hdrop] at h
            simp only [pathTail] at h
            by_cases hc2 : c2 = slashChar
            case neg => rw [if_neg hc2] at h; exact absurd h (by decide)
            case pos =>
              subst hc2
              rw [if_pos rfl] at h
              by_cases hn : r2.takeWhile isRepoChar = []
              case pos => rw [if_pos hn] at h; exact absurd h (by decide)
              case neg =>
                rw [if_neg hn] at h
                have h3 := of_decide_eq_true h
                have hrest : rest.takeWhile isRepoChar ++ (slashChar :: r2) = rest := by
                  have := List.takeWhile_append_dropWhile (p := isRepoChar) (l := rest)
                  rw [hdrop] at this
                  exact this
                have hr2 : r2.takeWhile isRepoChar ++ r2.dropWhile isRepoChar = r2 :=
                  List.takeWhile_append_dropWhile (p := isRepoChar) (l := r2)
                have hoall : ∀ d ∈ rest.takeWhile isRepoChar, isRepoChar d = true :=
                  fun d hd => List.mem_takeWhile_imp hd
                have hnall : ∀ d ∈ r2.takeWhile isRepoChar, isRepoChar d = true :=
                  fun d hd => List.mem_takeWhile_imp hd
                obtain ⟨tw, htw⟩ : ∃ tw, rest.takeWhile isRepoChar = tw := ⟨_, rfl⟩
                obtain ⟨tw2, htw2⟩ : ∃ tw2, r2.takeWhile isRepoChar = tw2 := ⟨_, rfl⟩
                rw [htw] at hrest hoall ho
                rw [htw2] at hr2 hnall hn
                rcases h3 with h3 | h3
                · rw [h3, List.append_nil] at hr2
                  subst hr2
                  refine Or.inl ⟨tw, tw2, ⟨ho, hoall⟩, ⟨hn, hnall⟩, Or.inl ?_⟩
                  rw [← hrest]
                · rw [h3] at hr2
                  refine Or.inr ⟨slashChar :: (tw ++ slashChar :: tw2),
                    ⟨tw, tw2, ⟨ho, hoall⟩, ⟨hn, hnall⟩, Or.inl rfl⟩, ?_⟩
                  rw [← hrest, ← hr2]
                  simp
  · intro h
    rcases h with ⟨o, n, ho, hn, hp | hp⟩ | ⟨q, ⟨o, n, ho, hn, hq | hq⟩, hpq⟩
    · rw [hp]
      have := pathRegexMatch_shape o n [] ho hn (Or.inl rfl)
      simpa using this
    · rw [hp]
      have hm : RepoSegP (n ++ dotGitChars) := by
        refine ⟨?_, ?_⟩
        · intro hne
          rcases n with _ | ⟨x, xs⟩
          · exact hn.1 rfl
          · exact absurd hne (by simp)
        · intro d hd
          rcases List.mem_append.mp hd with hd | hd
          · exact hn.2 d hd
          · exact (by decide : ∀ c ∈ dotGitChars, isRepoChar c = true) d hd
      have := pathRegexMatch_shape o (n ++ dotGitChars) [] ho hm (Or.inl rfl)
      simpa using this
    · rw [hpq, hq]
      have heq : (slashChar :: (o ++ slashChar :: n)) ++ [slashChar]
          = slashChar :: (o ++ slashChar :: (n ++ [slashChar])) := by simp
      rw [heq]
      exact pathRegexMatch_shape o n [slashChar] ho hn (Or.inr rfl)
    · rw [hpq, hq]
      have hm : RepoSegP (n ++ dotGitChars) := by
        refine ⟨?_, ?_⟩
        · intro hne
          rcases n with _ | ⟨x, xs⟩
          · exact hn.1 rfl
          · exact absurd hne (by simp)
        · intro d hd
          rcases List.mem_append.mp hd with hd | hd
          · exact hn.2 d hd
          · exact (by decide : ∀ c ∈ dotGitChars, isRepoChar c = true) d hd
      have heq : (slashChar :: (o ++ slashChar :: (n ++ dotGitChars))) ++ [slashChar]
          = slashChar :: (o ++ slashChar :: ((n ++ dotGitChars) ++ [slashChar])) := by
        simp
      rw [heq]
      exact pathRegexMatch_shape o (n ++ dotGitChars) [slashChar] ho hm (Or.inr rfl)

/- ### Claim theorems: C3 -/

theorem is_safe_conds (url : String) (parts : UrlParts)
    (hp : pyUrlparse url = some parts) :
    is_safe_git_url url =
      ((parts.scheme == "https") && !(parts.netloc == "")
        && (decide (parts.netloc ∈ allowed_domains)
            || allowed_domains.any (fun d => strEndsWith parts.netloc ("." ++ d)))
        && pathRegexMatch parts.path.data
        && !(!(parts.query == "") || !(parts.fragment == "")
            || optTruthy (usernameOf parts.netloc)
            || optTruthy (passwordOf parts.netloc))) := by
  unfold is_safe_git_url
  rw [hp]
  cases h1 : (parts.scheme == "https") <;>
  cases h2 : (parts.netloc == "") <;>
  cases h3 : (decide (parts.netloc ∈ allowed_domains)
      || allowed_domains.any (fun d => strEndsWith parts.netloc ("." ++ d))) <;>
  cases h4 : pathRegexMatch parts.path.data <;>
  cases h5 : (!(parts.query == "") || !(parts.fragment == "")
      || optTruthy (usernameOf parts.netloc)
      || optTruthy (passwordOf parts.netloc)) <;>
  simp [h1, h2, h3, h4, h5]

/-- C3 (amended): `is_safe_git_url` accepts exactly the URLs that parse
with an https scheme, a nonempty allow-listed (or dot-subdomain) netloc,
a path of the shape `/<owner>/<name>` optionally followed by `.git` and
optionally by one trailing slash, and no embedded credential text, query
or fragment. -/
theorem c3_accept_iff (url : String) :
    is_safe_git_url url = true ↔ ClaimCondAmended url := by
  cases hp : pyUrlparse url with
  | none =>
      unfold is_safe_git_url ClaimCondAmended
      rw [hp]
      simp
  | some parts =>
      rw [is_safe_conds url parts hp]
      unfold ClaimCondAmended
      constructor
      · intro h
        simp only [Bool.and_eq_true] at h
        obtain ⟨⟨⟨⟨hsch, hnet⟩, hhost⟩, hpath⟩, hq5⟩ := h
        have hb5 := hq5
        simp only [Bool.not_eq_true', Bool.or_eq_false_iff] at hb5
        obtain ⟨⟨⟨k1, k2⟩, k3⟩, k4⟩ := hb5
        refine ⟨parts, hp, by simpa using hsch, by simpa using hnet, ?_,
          (pathRegexMatch_iff _).mp hpath, k3, k4, by simpa using k1, by simpa using k2⟩
        have hhost' : parts.netloc ∈ allowed_domains
            ∨ ∃ d ∈ allowed_domains, strEndsWith parts.netloc ("." ++ d) = true := by
          simpa using hhost
        exact hhost'
      · rintro ⟨parts', hp', c1, c2, c3, c4, c5, c6, c7, c8⟩
        rw [hp] at hp'
        injection hp' with he
        subst he
        have hb3 : (decide (parts.netloc ∈ allowed_domains)
            || allowed_domains.any (fun d => strEndsWith parts.netloc ("." ++ d))) = true := by
          rcases c3 with hc | ⟨d, hd1, hd2⟩
          · simp [hc]
          · have hany : allowed_domains.any
                (fun d => strEndsWith parts.netloc ("." ++ d)) = true := by
              simp only [List.any_eq_true]
              exact ⟨d, hd1, hd2⟩
            simp [hany]
        have hb4 : pathRegexMatch parts.path.data = true := (pathRegexMatch_iff _).mpr c4
        simp [c1, c2, c5, c6, c7, c8, hb3, hb4]

/-- C3 counterexample to the claim as stated: the code accepts
`https://github.com/owner/repo/`, whose path carries a trailing slash and
therefore does not have the claim's `/<owner>/<name>[.git]` shape. -/
theorem c3_trailing_slash_counterexample :
    is_safe_git_url ("https://github.com/owner/repo/") = true
    ∧ ¬ ClaimCondStrict ("https://github.com/owner/repo/") := by
  constructor
  · decide
  · rintro ⟨parts, hp, -, -, -, hpath, -, -, -, -⟩
    have hps : pyUrlparse ("https://github.com/owner/repo/")
        = some ⟨"https", "github.com", "/owner/repo/", "", "", ""⟩ := by decide
    rw [hps] at hp
    injection hp with he
    subst he
    exact not_specPathStrict_trailing hpath

/- ### Helper lemmas for the cache-manager model -/

theorem cloneRepoM_count_one (u p : String) (st : RepoState) (o : RepoOracle) :
    (cloneRepoM u p st o).trace.count RepoAct.cloneFrom = 1 := by
  unfold cloneRepoM
  cases hc : o.cloneR <;> by_cases hpl : o.clonePartialLeft = true <;>
    simp [hpl, List.count_cons, List.count_nil]

theorem get_repoM_count_le_one (md5hex : String → String) (url : String)
    (st : RepoState) (o : RepoOracle) :
    (get_repoM md5hex url st o).trace.count RepoAct.cloneFrom ≤ 1 := by
  unfold get_repoM
  by_cases hsafe : is_safe_git_url url = false
  · simp [hsafe]
  · rw [if_neg hsafe]
    by_cases h1 : (st.existsDir && st.hasDotGit) = true
    · rw [if_pos h1]
      cases hf : o.fetchR <;>
        by_cases h2 : st.originUrl = url <;>
        by_cases h3 : o.rmtreeRecoverOk = true <;>
        simp [h2, h3, List.count_append, List.count_cons, List.count_nil,
          cloneRepoM_count_one]
    · rw [if_neg h1]
      by_cases h4 : st.existsDir = true <;>
        simp [h4, List.count_append, List.count_cons, List.count_nil,
          cloneRepoM_count_one]

theorem cloneRepoM_success (u p' : String) (st : RepoState) (o : RepoOracle)
    (q : String) (h : (cloneRepoM u p' st o).res = Except.ok q) :
    q = p' ∧ (cloneRepoM u p' st o).state = ⟨true, true, u⟩ := by
  unfold cloneRepoM at h ⊢
  by_cases hpl : o.clonePartialLeft = true <;> cases hc : o.cloneR <;> simp_all

theorem get_repoM_post_success (md5hex : String → String) (url : String)
    (st : RepoState) (o : RepoOracle) (p : String)
    (h : (get_repoM md5hex url st o).res = Except.ok p) :
    p = repoPathOf md5hex url
    ∧ (get_repoM md5hex url st o).state = ⟨true, true, url⟩
    ∧ is_safe_git_url url = true := by
  unfold get_repoM cloneRepoM at h ⊢
  by_cases h0 : is_safe_git_url url = false <;>
  by_cases h1 : (st.existsDir && st.hasDotGit) = true <;>
  by_cases h3 : o.rmtreeRecoverOk = true <;>
  by_cases h4 : st.existsDir = true <;>
  by_cases h5 : o.rmtreeStaleOk = true <;>
  by_cases h6 : o.clonePartialLeft = true <;>
  cases hf : o.fetchR <;>
  cases hc : o.cloneR <;>
  simp_all

/- ### Claim theorems: C5, C6, C8, C9 -/

/-- C5: with an existing valid cache directory, a fetch that fails with a
git command error triggers deletion of the directory followed by exactly
one fresh clone into the same path; on clone success the fresh path is
returned (the fetch error is not surfaced), and no call ever performs
more than one clone. -/
theorem c5_fetch_failure_recovery (md5hex : String → String) (url e : String)
    (st : RepoState) (o : RepoOracle)
    (hex : st.existsDir = true) (hgit : st.hasDotGit = true)
    (hfetch : o.fetchR = GitOutcome.gitError e)
    (hrm : o.rmtreeRecoverOk = true) (hclone : o.cloneR = GitOutcome.ok)
    (hsafe : is_safe_git_url url = true) :
    (get_repoM md5hex url st o).res = Except.ok (repoPathOf md5hex url)
    ∧ (get_repoM md5hex url st o).trace
        = (if st.originUrl = url then [RepoAct.openRepo]
           else [RepoAct.openRepo, RepoAct.setRemoteUrl])
          ++ [RepoAct.fetchOrigin, RepoAct.rmtreeDir, RepoAct.cloneFrom]
    ∧ (get_repoM md5hex url st o).state = ⟨true, true, url⟩
    ∧ (∀ (st' : RepoState) (o' : RepoOracle),
        (get_repoM md5hex url st' o').trace.count RepoAct.cloneFrom ≤ 1) := by
  refine ⟨?_, ?_, ?_, fun st' o' => get_repoM_count_le_one md5hex url st' o'⟩ <;>
    unfold get_repoM cloneRepoM <;>
    by_cases h2 : st.originUrl = url <;>
    simp [hex, hgit, hfetch, hrm, hclone, hsafe, h2]

/-- Witness for C5 at concrete inputs. -/
theorem c5_fetch_failure_recovery_witness :
    (get_repoM (fun _ => "k") ("https://github.com/o/r")
        ⟨true, true, ("https://github.com/o/r")⟩
        ⟨GitOutcome.gitError ("boom"), GitOutcome.ok, true, true, false, true⟩).res
      = Except.ok (repoPathOf (fun _ => "k") ("https://github.com/o/r")) :=
  (c5_fetch_failure_recovery (fun _ => "k") ("https://github.com/o/r") ("boom")
      ⟨true, true, ("https://github.com/o/r")⟩
      ⟨GitOutcome.gitError ("boom"), GitOutcome.ok, true, true, false, true⟩
      rfl rfl rfl rfl rfl (by decide)).1

/-- C6: provided the ignore-errors cleanup removal actually removes what
a failed clone left behind, every `_clone_repo` call ends with either a
fully completed valid clone (success) or an absent directory (failure,
surfaced as a RuntimeError after the removal) — never a reachable
half-written entry. -/
theorem c6_clone_failure_no_partial (repo_url repo_path : String)
    (st : RepoState) (o : RepoOracle)
    (hcleanup : o.clonePartialLeft = true → o.rmtreeCleanupOk = true) :
    ((cloneRepoM repo_url repo_path st o).res = Except.ok repo_path
      ∧ (cloneRepoM repo_url repo_path st o).state = ⟨true, true, repo_url⟩)
    ∨ ((∃ m, (cloneRepoM repo_url repo_path st o).res
          = Except.error (RepoErr.runtimeError m))
      ∧ (cloneRepoM repo_url repo_path st o).state.existsDir = false) := by
  unfold cloneRepoM
  cases hc : o.cloneR with
  | ok => exact Or.inl ⟨rfl, rfl⟩
  | gitError e =>
      by_cases hpl : o.clonePartialLeft = true
      · have hclean := hcleanup hpl
        refine Or.inr ⟨⟨"Failed to clone repo: " ++ e, by simp [hpl]⟩, ?_⟩
        simp [hpl, hclean]
      · refine Or.inr ⟨⟨"Failed to clone repo: " ++ e, by simp [hpl]⟩, ?_⟩
        simp [hpl]
  | otherError e =>
      by_cases hpl : o.clonePartialLeft = true
      · have hclean := hcleanup hpl
        refine Or.inr ⟨⟨"An unexpected error occurred during clone: " ++ e,
          by simp [hpl]⟩, ?_⟩
        simp [hpl, hclean]
      · refine Or.inr ⟨⟨"An unexpected error occurred during clone: " ++ e,
          by simp [hpl]⟩, ?_⟩
        simp [hpl]

/-- Witness for C6: a clone failure that left a partial directory, whose
cleanup succeeds. -/
theorem c6_clone_failure_no_partial_witness :
    ((cloneRepoM ("https://github.com/o/r") ("/app/clones/k")
        ⟨false, false, ("")⟩
        ⟨GitOutcome.ok, GitOutcome.gitError ("net down"), true, true, true, true⟩).res
          = Except.ok ("/app/clones/k")
      ∧ (cloneRepoM ("https://github.com/o/r") ("/app/clones/k")
        ⟨false, false, ("")⟩
        ⟨GitOutcome.ok, GitOutcome.gitError ("net down"), true, true, true, true⟩).state
          = ⟨true, true, ("https://github.com/o/r")⟩)
    ∨ ((∃ m, (cloneRepoM ("https://github.com/o/r") ("/app/clones/k")
        ⟨false, false, ("")⟩
        ⟨GitOutcome.ok, GitOutcome.gitError ("net down"), true, true, true, true⟩).res
          = Except.error (RepoErr.runtimeError m))
      ∧ (cloneRepoM ("https://github.com/o/r") ("/app/clones/k")
        ⟨false, false, ("")⟩
        ⟨GitOutcome.ok, GitOutcome.gitError ("net down"), true, true, true, true⟩).state.existsDir
          = false) :=
  c6_clone_failure_no_partial ("https://github.com/o/r") ("/app/clones/k")
    ⟨false, false, ("")⟩
    ⟨GitOutcome.ok, GitOutcome.gitError ("net down"), true, true, true, true⟩
    (fun _ => rfl)

/-- C8: the cache path is the same pure function of the URL on every
call; after a successful call, a second call with the same URL (whose
fetch succeeds — no intervening state change) returns the same path,
performs no clone, and takes the refresh (fetch) path. -/
theorem c8_second_call_refreshes (md5hex : String → String) (url p1 : String)
    (st : RepoState) (o1 o2 : RepoOracle)
    (h1 : (get_repoM md5hex url st o1).res = Except.ok p1)
    (hf2 : o2.fetchR = GitOutcome.ok) :
    (get_repoM md5hex url (get_repoM md5hex url st o1).state o2).res = Except.ok p1
    ∧ p1 = repoPathOf md5hex url
    ∧ RepoAct.cloneFrom ∉ (get_repoM md5hex url (get_repoM md5hex url st o1).state o2).trace
    ∧ RepoAct.fetchOrigin ∈ (get_repoM md5hex url (get_repoM md5hex url st o1).state o2).trace := by
  obtain ⟨hp, hst, hsafe⟩ := get_repoM_post_success md5hex url st o1 p1 h1
  rw [hst]
  refine ⟨?_, hp, ?_, ?_⟩
  · rw [hp]
    unfold get_repoM
    simp [hsafe, hf2]
  · unfold get_repoM
    simp [hsafe, hf2]
  · unfold get_repoM
    simp [hsafe, hf2]

/-- Witness for C8 at concrete inputs: a first-time clone followed by a
refresh. -/
theorem c8_second_call_refreshes_witness :
    (get_repoM (fun _ => "k") ("https://github.com/o/r")
        (get_repoM (fun _ => "k") ("https://github.com/o/r") ⟨false, false, ("")⟩
          ⟨GitOutcome.ok, GitOutcome.ok, true, true, false, true⟩).state
        ⟨GitOutcome.ok, GitOutcome.ok, true, true, false, true⟩).res
      = Except.ok ("/app/clones/k") :=
  (c8_second_call_refreshes (fun _ => "k") ("https://github.com/o/r") ("/app/clones/k")
      ⟨false, false, ("")⟩
      ⟨GitOutcome.ok, GitOutcome.ok, true, true, false, true⟩
      ⟨GitOutcome.ok, GitOutcome.ok, true, true, false, true⟩
      rfl rfl).1

/-- C9 (amended): every URL failing validation produces one and the same
undifferentiated rejection — a ValueError with a single fixed message —
with no state change and no operation performed; distinct violated rules
are not distinguishable in the surfaced rejection. -/
theorem c9_uniform_rejection (md5hex : String → String) (url : String)
    (st : RepoState) (o : RepoOracle) (h : is_safe_git_url url = false) :
    (get_repoM md5hex url st o).res = Except.error (RepoErr.valueError invalid_url_msg)
    ∧ (get_repoM md5hex url st o).state = st
    ∧ (get_repoM md5hex url st o).trace = [] := by
  unfold get_repoM
  rw [if_pos h]
  exact ⟨rfl, rfl, rfl⟩

/-- Witness for C9 (amended) at a concrete rejected URL. -/
theorem c9_uniform_rejection_witness :
    (get_repoM (fun _ => "k") ("http://github.com/a/b") ⟨false, false, ("")⟩
        ⟨GitOutcome.ok, GitOutcome.ok, true, true, false, true⟩).res
      = Except.error (RepoErr.valueError invalid_url_msg) :=
  (c9_uniform_rejection (fun _ => "k") ("http://github.com/a/b") ⟨false, false, ("")⟩
      ⟨GitOutcome.ok, GitOutcome.ok, true, true, false, true⟩ (by decide)).1

/-- C9 counterexample to the claim as stated: a scheme violation and a
host allow-list violation are distinct rule violations, yet both surface
to the caller as the identical rejection (False from the validator, the
same ValueError from `get_repo`). -/
theorem c9_rejections_indistinguishable :
    is_safe_git_url ("http://github.com/a/b") = false
    ∧ is_safe_git_url ("https://evil.com/a/b") = false
    ∧ (pyUrlparse ("http://github.com/a/b")).map UrlParts.scheme = some ("http")
    ∧ (pyUrlparse ("https://evil.com/a/b")).map UrlParts.scheme = some ("https")
    ∧ (decide (("evil.com" : String) ∈ allowed_domains)
        || allowed_domains.any (fun d => strEndsWith ("evil.com") ("." ++ d))) = false
    ∧ (get_repoM (fun _ => "k") ("http://github.com/a/b") ⟨false, false, ("")⟩
        ⟨GitOutcome.ok, GitOutcome.ok, true, true, false, true⟩).res
      = (get_repoM (fun _ => "k") ("https://evil.com/a/b") ⟨false, false, ("")⟩
        ⟨GitOutcome.ok, GitOutcome.ok, true, true, false, true⟩).res :=
  ⟨by decide, by decide, by decide, by decide, by decide, rfl⟩
